import Mathlib

/-!
Verification of the attribute-resolution core (core/policyengine/engine/fieldmapper.go).

The Go source defines a registry mapping attribute names to extractor closures over an
opaque Record, plus generic / integer / string dispatch with total coercion fallbacks.
Pure Go functions are embedded as Lean functions; the Go `interface\x7b\x7d` value returned by
extractors is embedded as the tagged variant `Value` (integer, string, boolean, other);
64-bit machine integers are embedded as `Int` with explicit wrapping where overflow
matters; the panicking list index in `mapJoin` is embedded with `Option`.
-/

namespace SfProcessor

/-- Modelled from the spec: the enrichment source tags (`flattener.Source`, defined in the
repository outside the provided source tree). The spec names core telemetry plus
process-, file-, network- and target-process-enrichment sources. -/
inductive Source where
  | SYSFLOW_SRC
  | PROCESS_SRC
  | FILE_SRC
  | NETWORK_SRC
  | TARG_PROC_SRC
  deriving DecidableEq

/-- Modelled from the spec: the field identifiers (`sfgo.Attribute`, an integer enumeration
from the external sf-apis library). Only the identifiers used by the claims are included;
their role is that of opaque, distinct field keys. -/
inductive Attribute where
  | TS_INT
  | PROC_OID_HPID_INT
  | PROC_OID_CREATETS_INT
  | PROC_EXE_STR
  | PROC_EXEARGS_STR
  | PROC_ENTRY_INT
  | FILE_PATH_STR
  | FL_NETW_PROTO_INT
  | FL_FILE_NUMRRECVBYTES_INT
  | FL_NETW_NUMRRECVBYTES_INT
  | RET_INT
  | SF_REC_TYPE
  deriving DecidableEq

/-- Tagged variant embedding the Go `interface\x7b\x7d` values produced and inspected by the
field mappers: extractors return `int64`, `string` or `bool`; `other` stands for any
other dynamic type (the coercion fallback branches of MapInt and MapStr). -/
inductive Value where
  | int (v : Int)
  | str (s : String)
  | bool (b : Bool)
  | other
  deriving DecidableEq

/-- Modelled from the spec: record type codes (`sfgo.HEADER` etc., external sf-apis
enumeration). The spec lists a closed enumeration of eight codes; only distinctness of
the codes is relied on, the concrete numerals are representative. -/
def HEADER : Int := 0

/-- Modelled from the spec: record type code for container records. -/
def CONT : Int := 1

/-- Modelled from the spec: record type code for process records. -/
def PROC : Int := 2

/-- Modelled from the spec: record type code for file records. -/
def FILE : Int := 3

/-- Modelled from the spec: record type code for process-event records. -/
def PROC_EVT : Int := 4

/-- Modelled from the spec: record type code for file-event records. -/
def FILE_EVT : Int := 5

/-- Modelled from the spec: record type code for file-flow records. -/
def FILE_FLOW : Int := 6

/-- Modelled from the spec: record type code for network-flow records. -/
def NET_FLOW : Int := 7

/-- Modelled from the spec: the opaque Record abstraction (engine.Record, defined in the
repository outside the provided source tree). It exposes per-source typed getters
`GetStr(fieldId, source)` and `GetInt(fieldId, source)`; records are read-only. -/
structure Record where
  GetStr : Attribute → Source → String
  GetInt : Attribute → Source → Int

/-- Embedding of sfgo.Zeros.Int64, the integer zero fallback value. -/
def Zeros_Int64 : Int := 0

/-- Embedding of sfgo.Zeros.String, the string zero fallback value. -/
def Zeros_String : String := ""

/-- Modelled from the spec: the SPACE separator constant (engine constant defined in the
repository outside the provided source tree); the spec fixes a single-space separator. -/
def SPACE : String := " "

/-- FieldMap is a functional type denoting a SysFlow attribute mapper (fieldmapper.go
line 37). -/
def FieldMap := Record → Value

/-- IntFieldMap is a functional type denoting a numerical attribute mapper. -/
def IntFieldMap := Record → Int

/-- StrFieldMap is a functional type denoting a string attribute mapper. -/
def StrFieldMap := Record → String

/-- Embedding of the 64-bit two's-complement wrap applied implicitly by Go int64
arithmetic: reduce into the interval from -(2^63) to 2^63 - 1. -/
def wrap64 (x : Int) : Int := (x + 2 ^ 63) % 2 ^ 64 - 2 ^ 63

/-- Embedding of mapStr (fieldmapper.go lines 260-262): direct string field copy. -/
def mapStr (src : Source) (attr : Attribute) : FieldMap :=
  fun r => Value.str (r.GetStr attr src)

/-- Embedding of mapInt (fieldmapper.go lines 264-266): direct integer field copy. -/
def mapInt (src : Source) (attr : Attribute) : FieldMap :=
  fun r => Value.int (r.GetInt attr src)

/-- Embedding of mapSum (fieldmapper.go lines 268-276): fold the int64 values of the bound
fields with wrapping 64-bit addition, starting from 0. -/
def mapSum (src : Source) (attrs : List Attribute) : FieldMap :=
  fun r => Value.int (attrs.foldl (fun sum attr => wrap64 (sum + r.GetInt attr src)) 0)

/-- Embedding of mapJoin (fieldmapper.go lines 278-286). The Go code reads `attrs[0]`
unguarded, which panics when the bound list is empty; this partiality is embedded with
`Option` (`none` models the out-of-bounds panic). The remaining fields (`attrs[1:]`)
are appended each prefixed by the SPACE separator. -/
def mapJoin (src : Source) (attrs : List Attribute) : Record → Option Value :=
  fun r =>
    match attrs.head? with
    | none => none
    | some a0 =>
        some (Value.str ((attrs.drop 1).foldl
          (fun join attr => join ++ SPACE ++ r.GetStr attr src) (r.GetStr a0 src)))

/-- Specialization of the variadic mapJoin at its sole registry call site, which binds
exactly two fields (fieldmapper.go line 134); with a non-empty bound list the panic
branch is unreachable, so the specialization is total. Its agreement with `mapJoin` on
two-element lists is proved in the claim theorem for mapJoin. -/
def mapJoin2 (src : Source) (a b : Attribute) : FieldMap :=
  fun r => Value.str (r.GetStr a src ++ SPACE ++ r.GetStr b src)

/-- Embedding of mapRet (fieldmapper.go lines 321-332): the raw return-code field for
process-event and file-event records (the switch with fallthrough), the integer zero
value for every other record type. -/
def mapRet (src : Source) : FieldMap :=
  fun r =>
    if r.GetInt Attribute.SF_REC_TYPE src = PROC_EVT then
      Value.int (r.GetInt Attribute.RET_INT src)
    else if r.GetInt Attribute.SF_REC_TYPE src = FILE_EVT then
      Value.int (r.GetInt Attribute.RET_INT src)
    else
      Value.int Zeros_Int64

/-- Embedding of mapEntry (fieldmapper.go lines 347-354): integer field equal to 1 maps to
true, anything else to false. -/
def mapEntry (src : Source) (attr : Attribute) : FieldMap :=
  fun r => if r.GetInt attr src = 1 then Value.bool true else Value.bool false

/-- Embedding of mapProto (fieldmapper.go lines 411-415). The Go body returns the raw
integer field value unchanged (`return r.GetInt(attr, src)`); it performs no
integer-to-symbolic-name lookup. -/
def mapProto (src : Source) (attr : Attribute) : FieldMap :=
  fun r => Value.int (r.GetInt attr src)

/-- True exactly on the characters the fmt scanner treats as (non-newline) space in the
inputs at hand: space (32), horizontal tab (9) and carriage return (13). -/
def isScanSpace (c : Char) : Bool := c.toNat == 32 || c.toNat == 9 || c.toNat == 13

/-- Hexadecimal value of a digit character, if it is one (0-9, a-f, A-F). -/
def hexVal (c : Char) : Option Nat :=
  let n := c.toNat
  if 48 ≤ n ∧ n ≤ 57 then some (n - 48)
  else if 97 ≤ n ∧ n ≤ 102 then some (n - 87)
  else if 65 ≤ n ∧ n ≤ 70 then some (n - 55)
  else none

/-- True exactly on hexadecimal digit characters. -/
def isHexDigit (c : Char) : Bool := (hexVal c).isSome

/-- Scan a maximal non-empty run of hexadecimal digits (the fmt %x verb for uint64): fails
when there is no digit or when the value overflows 64 bits. Returns the value and the
unconsumed remainder. -/
def scanHex (cs : List Char) : Option (Nat × List Char) :=
  let digits := cs.takeWhile isHexDigit
  let rest := cs.dropWhile isHexDigit
  if digits.isEmpty then none
  else
    let v := digits.foldl (fun acc c => acc * 16 + ((hexVal c).getD 0)) 0
    if v < 2 ^ 64 then some (v, rest) else none

/-- Embedding of the fmt.Sscanf call with format "%x->%x %s" in mapLinkPath
(fieldmapper.go line 374): each %x verb first discards leading spaces then scans a
uint64 in hexadecimal; the literal arrow must match exactly; the format space must
consume at least one input space; %s discards leading spaces and takes a non-empty run
of characters up to the next space or newline. `none` models any scan error. -/
def scanLinkPath (s : String) : Option String :=
  match scanHex (s.data.dropWhile isScanSpace) with
  | none => none
  | some (_, cs1) =>
    match cs1 with
    | c1 :: c2 :: cs2 =>
      if c1 == '-' && c2 == '>' then
        match scanHex (cs2.dropWhile isScanSpace) with
        | none => none
        | some (_, cs4) =>
          match cs4 with
          | [] => none
          | c :: _ =>
            if isScanSpace c then
              let tok := (cs4.dropWhile isScanSpace).takeWhile
                (fun c => !(isScanSpace c || c.toNat == 10))
              if tok.isEmpty then none else some (String.mk tok)
            else none
      else none
    | _ => none

/-- Embedding of mapLinkPath (fieldmapper.go lines 368-379): attempt to parse the
symbolic-link notation; on success return only the target path, on any parse failure
return the original string unchanged. -/
def mapLinkPath (src : Source) (attr : Attribute) : FieldMap :=
  fun r =>
    match scanLinkPath (r.GetStr attr src) with
    | some targetPath => Value.str targetPath
    | none => Value.str (r.GetStr attr src)

/-- FieldMapper is an adapter for SysFlow attribute mappers (fieldmapper.go lines 46-48);
the Go map is embedded as an association list with unique keys. -/
structure FieldMapper where
  Mappers : List (String × FieldMap)

/-- Embedding of FieldMapper.Map (fieldmapper.go lines 51-56): registry lookup; on a miss,
an identity extractor returning the attribute name itself. -/
def FieldMapper.Map (m : FieldMapper) (attr : String) : FieldMap :=
  match m.Mappers.lookup attr with
  | some mapper => mapper
  | none => fun _ => Value.str attr

/-- Embedding of strconv.ParseInt(attr, 10, 64): optional sign followed by a non-empty run
of decimal digits, whose value must fit in a signed 64-bit integer; `none` models every
error return (syntax or range). -/
def parseInt64 (s : String) : Option Int :=
  match s.data with
  | [] => none
  | c :: cs =>
    let signDigits : Bool × List Char :=
      if c == '+' then (false, cs)
      else if c == '-' then (true, cs)
      else (false, c :: cs)
    let digits := signDigits.2
    if digits.isEmpty then none
    else if digits.all Char.isDigit then
      let v : Nat := digits.foldl (fun acc d => acc * 10 + (d.toNat - 48)) 0
      if signDigits.1 then
        if v ≤ 2 ^ 63 then some (-(v : Int)) else none
      else
        if v < 2 ^ 63 then some ((v : Int)) else none
    else none

/-- Embedding of FieldMapper.MapInt (fieldmapper.go lines 59-68): the extracted value when
it is an int64; otherwise the base-10 parse of the attribute name when it parses as a
64-bit signed decimal; otherwise the integer zero value. -/
def FieldMapper.MapInt (m : FieldMapper) (attr : String) : IntFieldMap :=
  fun r =>
    match FieldMapper.Map m attr r with
    | Value.int v => v
    | _ =>
      match parseInt64 attr with
      | some v => v
      | none => Zeros_Int64

/-- True exactly on the two quote characters the Go code tests for: double quote (34) and
single quote (39). -/
def isQuoteChar (c : Char) : Bool := c.toNat == 34 || c.toNat == 39

/-- First half of trimBoundingQuotes (fieldmapper.go lines 85-87): drop the first character
when the string is non-empty and starts with a quote character. -/
def trimLeadQuote (cs : List Char) : List Char :=
  match cs with
  | [] => []
  | c :: rest => if isQuoteChar c then rest else c :: rest

/-- Second half of trimBoundingQuotes (fieldmapper.go lines 88-90): drop the last character
when the (possibly already lead-trimmed) string is non-empty and ends with a quote
character. -/
def trimTrailQuote (cs : List Char) : List Char :=
  match cs.getLast? with
  | some c => if isQuoteChar c then cs.dropLast else cs
  | none => cs

/-- Embedding of FieldMapper.trimBoundingQuotes (fieldmapper.go lines 84-92): the leading
check runs on the original string, the trailing check on the remainder. -/
def FieldMapper.trimBoundingQuotes (m : FieldMapper) (s : String) : String :=
  String.mk (trimTrailQuote (trimLeadQuote s.data))

/-- Embedding of strconv.FormatInt(v, 10): base-10 decimal formatting of a signed 64-bit
integer, with a leading minus sign for negative values. -/
def formatInt64 (v : Int) : String := toString v

/-- Embedding of strconv.FormatBool. -/
def formatBool (b : Bool) : String := if b then "true" else "false"

/-- Embedding of FieldMapper.MapStr (fieldmapper.go lines 71-82): quote-trimmed string for
string values, decimal formatting for int64 values, true/false for booleans, the string
zero value otherwise. The three Go type assertions are on the same pure extractor
value, so a single match is an exact embedding. -/
def FieldMapper.MapStr (m : FieldMapper) (attr : String) : StrFieldMap :=
  fun r =>
    match FieldMapper.Map m attr r with
    | Value.str v => m.trimBoundingQuotes v
    | Value.int v => formatInt64 v
    | Value.bool v => formatBool v
    | Value.other => Zeros_String

/-- Embedding of len(strings.Split(k, ".")) used by the getFields comparator
(fieldmapper.go lines 100-101): splitting on a one-character separator yields one more
piece than there are separator occurrences. -/
def segCount (s : String) : Nat := s.data.countP (fun c => c == '.') + 1

/-- Embedding of strings.Compare used by the getFields comparator (fieldmapper.go line
103): lexicographic three-way comparison (Go compares UTF-8 bytes; on character
sequences byte order and code-point order agree). -/
def compareChars : List Char → List Char → Ordering
  | [], [] => Ordering.eq
  | [], _ :: _ => Ordering.lt
  | _ :: _, [] => Ordering.gt
  | a :: as, b :: bs =>
    if a.toNat < b.toNat then Ordering.lt
    else if b.toNat < a.toNat then Ordering.gt
    else compareChars as bs

/-- Non-strict lexicographic string order: strings.Compare does not return gt. -/
def strLe (a b : String) : Prop := compareChars a.data b.data ≠ Ordering.gt

instance : DecidableRel strLe := fun a b =>
  if h : compareChars a.data b.data = Ordering.gt then isFalse (fun hn => hn h)
  else isTrue h

/-- The total order realized by the getFields comparator (fieldmapper.go lines 99-106):
ascending dot-separated segment count, ties broken by ascending lexicographic string
order (strings.Compare). -/
def fieldLe (a b : String) : Prop :=
  segCount a < segCount b ∨ (segCount a = segCount b ∧ strLe a b)

instance : DecidableRel fieldLe := fun a b =>
  inferInstanceAs (Decidable (segCount a < segCount b ∨ (segCount a = segCount b ∧ strLe a b)))

lemma compareChars_swap (as : List Char) :
    ∀ bs : List Char, compareChars bs as = (compareChars as bs).swap := by
  induction as with
  | nil => intro bs; cases bs <;> rfl
  | cons a as ih =>
    intro bs
    cases bs with
    | nil => rfl
    | cons b bs =>
      simp only [compareChars]
      split_ifs with h1 h2 <;> first | omega | rfl | exact ih bs

lemma compareChars_le_trans (as : List Char) :
    ∀ bs cs : List Char, compareChars as bs ≠ Ordering.gt →
      compareChars bs cs ≠ Ordering.gt → compareChars as cs ≠ Ordering.gt := by
  induction as with
  | nil => intro bs cs _ _; cases cs <;> simp [compareChars]
  | cons a as ih =>
    intro bs cs h1 h2
    cases bs with
    | nil => exact absurd rfl h1
    | cons b bs =>
      cases cs with
      | nil => exact absurd rfl h2
      | cons c cs =>
        simp only [compareChars] at h1 h2 ⊢
        rcases Nat.lt_trichotomy a.toNat b.toNat with hab | hab | hab <;>
          rcases Nat.lt_trichotomy b.toNat c.toNat with hbc | hbc | hbc
        all_goals first
          | (rw [if_pos (by omega)]; exact fun hx => Ordering.noConfusion hx)
          | (rw [if_neg (by omega), if_pos (by omega)] at h1
             exact absurd rfl h1)
          | (rw [if_neg (by omega), if_pos (by omega)] at h2
             exact absurd rfl h2)
          | (rw [if_neg (by omega), if_neg (by omega)] at h1
             rw [if_neg (by omega), if_neg (by omega)] at h2
             rw [if_neg (by omega), if_neg (by omega)]
             exact ih bs cs h1 h2)

instance : IsTotal String fieldLe := by
  constructor
  intro a b
  rcases Nat.lt_trichotomy (segCount a) (segCount b) with h | h | h
  · exact Or.inl (Or.inl h)
  · by_cases hs : compareChars a.data b.data = Ordering.gt
    · refine Or.inr (Or.inr ⟨h.symm, ?_⟩)
      intro hgt
      rw [compareChars_swap, hs] at hgt
      exact Ordering.noConfusion hgt
    · exact Or.inl (Or.inr ⟨h, hs⟩)
  · exact Or.inr (Or.inl h)

instance : IsTrans String fieldLe := by
  constructor
  intro a b c hab hbc
  rcases hab with h1 | ⟨h1, h1s⟩ <;> rcases hbc with h2 | ⟨h2, h2s⟩
  · exact Or.inl (h1.trans h2)
  · exact Or.inl (h2 ▸ h1)
  · exact Or.inl (h1 ▸ h2)
  · exact Or.inr ⟨h1.trans h2, compareChars_le_trans _ _ _ h1s h2s⟩

/-- Embedding of getFields (fieldmapper.go lines 94-108). Go collects the registry keys
and sorts them with sort.SliceStable under the strict comparator; because the order is
total and antisymmetric on strings, the stably sorted result is the unique sorted
permutation, here computed by insertion sort under the non-strict closure `fieldLe`. -/
def getFields (keys : List String) : List String := List.insertionSort fieldLe keys

/-- Modelled from the spec: attribute-name constant SF_TS (engine constant defined in the
repository outside the provided source tree); the spec names the attribute `ts`. -/
def SF_TS : String := "ts"

/-- Modelled from the spec: attribute-name constant SF_PROC_PID (`proc.pid`). -/
def SF_PROC_PID : String := "proc.pid"

/-- Modelled from the spec: attribute-name constant SF_PROC_NAME (`proc.name`). -/
def SF_PROC_NAME : String := "proc.name"

/-- Modelled from the spec: attribute-name constant SF_PROC_EXE (`proc.exe`). -/
def SF_PROC_EXE : String := "proc.exe"

/-- Modelled from the spec: attribute-name constant SF_PROC_ARGS (`proc.args`). -/
def SF_PROC_ARGS : String := "proc.args"

/-- Modelled from the spec: attribute-name constant SF_PROC_CMDLINE (`proc.cmdline`). -/
def SF_PROC_CMDLINE : String := "proc.cmdline"

/-- Modelled from the spec: attribute-name constant SF_PROC_ENTRY (`proc.entry`). -/
def SF_PROC_ENTRY : String := "proc.entry"

/-- Modelled from the spec: attribute-name constant SF_RET (`ret`). -/
def SF_RET : String := "ret"

/-- Modelled from the spec: attribute-name constant SF_NET_PROTO (`net.proto`). -/
def SF_NET_PROTO : String := "net.proto"

/-- Modelled from the spec: attribute-name constant SF_NET_PROTONAME (`net.protoname`). -/
def SF_NET_PROTONAME : String := "net.protoname"

/-- Modelled from the spec: attribute-name constant SF_FILE_CANONICALPATH
(`file.canonicalpath`). -/
def SF_FILE_CANONICALPATH : String := "file.canonicalpath"

/-- Modelled from the spec: attribute-name constant SF_FLOW_RBYTES (`flow.rbytes`). -/
def SF_FLOW_RBYTES : String := "flow.rbytes"

/-- Embedding of the global attribute mapper instance (fieldmapper.go lines 114-258),
restricted to the registry entries the claims reference; the bindings (extractor
factory, source tag, field identifiers) follow the source lines cited on each claim. -/
def Mapper : FieldMapper :=
  ⟨[(SF_RET, mapRet Source.SYSFLOW_SRC),
    (SF_TS, mapInt Source.SYSFLOW_SRC Attribute.TS_INT),
    (SF_PROC_PID, mapInt Source.SYSFLOW_SRC Attribute.PROC_OID_HPID_INT),
    (SF_PROC_NAME, mapStr Source.SYSFLOW_SRC Attribute.PROC_EXE_STR),
    (SF_PROC_EXE, mapStr Source.SYSFLOW_SRC Attribute.PROC_EXE_STR),
    (SF_PROC_ARGS, mapStr Source.SYSFLOW_SRC Attribute.PROC_EXEARGS_STR),
    (SF_PROC_ENTRY, mapEntry Source.SYSFLOW_SRC Attribute.PROC_ENTRY_INT),
    (SF_PROC_CMDLINE, mapJoin2 Source.SYSFLOW_SRC Attribute.PROC_EXE_STR Attribute.PROC_EXEARGS_STR),
    (SF_FILE_CANONICALPATH, mapLinkPath Source.SYSFLOW_SRC Attribute.FILE_PATH_STR),
    (SF_NET_PROTO, mapInt Source.SYSFLOW_SRC Attribute.FL_NETW_PROTO_INT),
    (SF_NET_PROTONAME, mapProto Source.SYSFLOW_SRC Attribute.FL_NETW_PROTO_INT),
    (SF_FLOW_RBYTES, mapSum Source.SYSFLOW_SRC
      [Attribute.FL_FILE_NUMRRECVBYTES_INT, Attribute.FL_NETW_NUMRRECVBYTES_INT])]⟩

/-- The registered attribute names of the modelled registry. -/
def registryKeys : List String := Mapper.Mappers.map Prod.fst

/-- Fields defines a sorted array of all field mapper keys (fieldmapper.go lines
110-111). -/
def Fields : List String := getFields registryKeys

/-- Concrete record whose getters return the zero values, used by witnesses. -/
def defaultRecord : Record := ⟨fun _ _ => Zeros_String, fun _ _ => Zeros_Int64⟩

/-- Concrete string with mismatched bounding quotes: a double quote (34), the characters
of foo, then a single quote (39). -/
def quotedFoo : String := String.mk (Char.ofNat 34 :: ("foo".data ++ [Char.ofNat 39]))

/-- Concrete record whose process-executable field carries mismatched bounding quotes. -/
def quotedRecord : Record :=
  ⟨fun a _ =>
      match a with
      | Attribute.PROC_EXE_STR => quotedFoo
      | _ => Zeros_String,
    fun _ _ => 0⟩

/-- Concrete record whose transport-protocol field is 6 (the TCP protocol number). -/
def protoRecord : Record :=
  ⟨fun _ _ => Zeros_String,
    fun a _ =>
      match a with
      | Attribute.FL_NETW_PROTO_INT => 6
      | _ => 0⟩

/-- Concrete record whose string fields carry the symbolic-link notation example. -/
def linkRecord : Record :=
  ⟨fun _ _ => "aabbccddeeff0011->aabbccddeeff0011 /path/to/target.file", fun _ _ => 0⟩

/-- Concrete process-event record with return code 42. -/
def retRecord : Record :=
  ⟨fun _ _ => Zeros_String,
    fun a _ =>
      match a with
      | Attribute.SF_REC_TYPE => PROC_EVT
      | Attribute.RET_INT => 42
      | _ => 0⟩

/-- Concrete record with a negative and a positive flow counter. -/
def sumRecord : Record :=
  ⟨fun _ _ => Zeros_String,
    fun a _ =>
      match a with
      | Attribute.FL_FILE_NUMRRECVBYTES_INT => -5
      | Attribute.FL_NETW_NUMRRECVBYTES_INT => 3
      | _ => 0⟩

lemma lookup_eq_none_of_not_mem (attr : String) (l : List (String × FieldMap))
    (h : attr ∉ l.map Prod.fst) : l.lookup attr = none := by
  induction l with
  | nil => rfl
  | cons p rest ih =>
    cases p with
    | mk k v =>
      simp only [List.map_cons, List.mem_cons, not_or] at h
      have hne : (attr == k) = false := beq_eq_false_iff_ne.mpr h.1
      simp [List.lookup, hne, ih h.2]

lemma trimLead_spec (cs : List Char) :
    ∃ a : Nat, a ≤ 1 ∧ trimLeadQuote cs = cs.drop a ∧
      (a = 1 → ∃ c, cs.head? = some c ∧ isQuoteChar c = true) := by
  cases cs with
  | nil => exact ⟨0, Nat.zero_le 1, rfl, fun h => absurd h (by decide)⟩
  | cons c rest =>
    by_cases hq : isQuoteChar c = true
    · exact ⟨1, le_refl 1, by simp [trimLeadQuote, hq], fun _ => ⟨c, rfl, hq⟩⟩
    · exact ⟨0, Nat.zero_le 1, by simp [trimLeadQuote, hq], fun h => absurd h (by decide)⟩

lemma trimTrail_spec (cs : List Char) :
    ∃ b : Nat, b ≤ 1 ∧ trimTrailQuote cs = cs.take (cs.length - b) ∧
      (b = 1 → ∃ c, cs.getLast? = some c ∧ isQuoteChar c = true) := by
  unfold trimTrailQuote
  cases h : cs.getLast? with
  | none =>
    have hnil : cs = [] := List.getLast?_eq_none_iff.mp h
    refine ⟨0, Nat.zero_le 1, ?_, fun h1 => absurd h1 (by decide)⟩
    subst hnil
    rfl
  | some c =>
    by_cases hq : isQuoteChar c = true
    · refine ⟨1, le_refl 1, ?_, fun _ => ⟨c, rfl, hq⟩⟩
      simp only [hq, if_true]
      exact List.dropLast_eq_take cs
    · refine ⟨0, Nat.zero_le 1, ?_, fun h1 => absurd h1 (by decide)⟩
      simp only [hq, if_false]
      simp [List.take_length]

lemma trimBoundingQuotes_spec (m : FieldMapper) (s : String) :
    ∃ a b : Nat, a ≤ 1 ∧ b ≤ 1 ∧
      (m.trimBoundingQuotes s).data = (s.data.drop a).take ((s.data.drop a).length - b) ∧
      (a = 1 → ∃ c, s.data.head? = some c ∧ isQuoteChar c = true) ∧
      (b = 1 → ∃ c, (s.data.drop a).getLast? = some c ∧ isQuoteChar c = true) := by
  obtain ⟨a, ha1, ha2, ha3⟩ := trimLead_spec s.data
  obtain ⟨b, hb1, hb2, hb3⟩ := trimTrail_spec (trimLeadQuote s.data)
  refine ⟨a, b, ha1, hb1, ?_, ha3, ?_⟩
  · show trimTrailQuote (trimLeadQuote s.data) = _
    rw [hb2, ha2]
  · rw [← ha2]
    exact hb3

lemma trimBoundingQuotes_length (m : FieldMapper) (s : String) :
    s.length - 2 ≤ (m.trimBoundingQuotes s).length := by
  obtain ⟨a, b, ha, hb, hdata, _, _⟩ := trimBoundingQuotes_spec m s
  have h1 : (m.trimBoundingQuotes s).length
      = ((s.data.drop a).take ((s.data.drop a).length - b)).length := by
    rw [← hdata]
    rfl
  rw [h1]
  have h2 : s.length = s.data.length := rfl
  simp only [List.length_take, List.length_drop]
  omega

lemma wrap64_eq_self (x : Int) (h1 : -(2 ^ 63) ≤ x) (h2 : x < 2 ^ 63) : wrap64 x = x := by
  have e63 : (2 : Int) ^ 63 = 9223372036854775808 := by norm_num
  have e64 : (2 : Int) ^ 64 = 18446744073709551616 := by norm_num
  unfold wrap64
  rw [e63, e64]
  rw [e63] at h1 h2
  rw [Int.emod_eq_of_lt (by omega) (by omega)]
  omega

/-- Claim C1: for every attribute name that is not a key of the registry mapper table and
for every record, FieldMapper.Map returns an extractor yielding the name itself; Map is
a total function, so resolution never signals a missing-field error for any name. -/
theorem c1_unregistered_name_passthrough (m : FieldMapper) (attr : String) (r : Record)
    (h : attr ∉ m.Mappers.map Prod.fst) :
    FieldMapper.Map m attr r = Value.str attr := by
  unfold FieldMapper.Map
  rw [lookup_eq_none_of_not_mem attr m.Mappers h]

/-- Witness for C1: the concrete name unregistered.name is not registered in the modelled
registry and resolves to itself. -/
theorem c1_witness :
    FieldMapper.Map Mapper "unregistered.name" defaultRecord
      = Value.str "unregistered.name" :=
  c1_unregistered_name_passthrough Mapper "unregistered.name" defaultRecord (by decide)

/-- Claim C2: integer resolution returns the extracted value when it is an integer,
otherwise the base-10 parse of the attribute name when it parses as a signed 64-bit
decimal literal, otherwise the integer zero value; MapInt is a total function, so no
input causes an error. -/
theorem c2_mapint_total_coercion (m : FieldMapper) (attr : String) (r : Record) :
    (∀ v : Int, FieldMapper.Map m attr r = Value.int v →
      FieldMapper.MapInt m attr r = v)
    ∧ ((∀ v : Int, FieldMapper.Map m attr r ≠ Value.int v) →
      FieldMapper.MapInt m attr r = (parseInt64 attr).getD 0) := by
  constructor
  · intro v hv
    unfold FieldMapper.MapInt
    rw [hv]
  · intro hnv
    unfold FieldMapper.MapInt
    cases hM : FieldMapper.Map m attr r with
    | int v => exact absurd hM (hnv v)
    | str s => cases hp : parseInt64 attr <;> simp [hp, Zeros_Int64]
    | bool b => cases hp : parseInt64 attr <;> simp [hp, Zeros_Int64]
    | other => cases hp : parseInt64 attr <;> simp [hp, Zeros_Int64]

/-- Witness for C2: the unregistered attribute name 1984 resolves to itself and its
integer coercion is the parsed literal 1984. -/
theorem c2_witness : FieldMapper.MapInt Mapper "1984" defaultRecord = 1984 := by
  have hM : FieldMapper.Map Mapper "1984" defaultRecord = Value.str "1984" := by decide
  have h := (c2_mapint_total_coercion Mapper "1984" defaultRecord).2
    (fun v hv => Value.noConfusion (hM.symm.trans hv))
  exact h.trans (by decide)

/-- Claim C3: string resolution returns, for a string value, the value with at most one
leading quote character and at most one trailing quote character removed (the two not
required to match); for an integer value its base-10 decimal formatting; for a boolean
the strings true or false; and the empty string otherwise. -/
theorem c3_mapstr_total_coercion (m : FieldMapper) (attr : String) (r : Record) :
    (∀ s, FieldMapper.Map m attr r = Value.str s →
      FieldMapper.MapStr m attr r = m.trimBoundingQuotes s
      ∧ ∃ a b : Nat, a ≤ 1 ∧ b ≤ 1 ∧
          (m.trimBoundingQuotes s).data
            = (s.data.drop a).take ((s.data.drop a).length - b)
          ∧ (a = 1 → ∃ c, s.data.head? = some c ∧ isQuoteChar c = true)
          ∧ (b = 1 → ∃ c, (s.data.drop a).getLast? = some c ∧ isQuoteChar c = true))
    ∧ (∀ v : Int, FieldMapper.Map m attr r = Value.int v →
      FieldMapper.MapStr m attr r = formatInt64 v)
    ∧ (∀ b, FieldMapper.Map m attr r = Value.bool b →
      FieldMapper.MapStr m attr r = formatBool b)
    ∧ (FieldMapper.Map m attr r = Value.other →
      FieldMapper.MapStr m attr r = "") := by
  refine ⟨?_, ?_, ?_, ?_⟩
  · intro s hs
    constructor
    · unfold FieldMapper.MapStr
      rw [hs]
    · exact trimBoundingQuotes_spec m s
  · intro v hv
    unfold FieldMapper.MapStr
    rw [hv]
  · intro b hb
    unfold FieldMapper.MapStr
    rw [hb]
  · intro ho
    unfold FieldMapper.MapStr
    rw [ho]
    rfl

/-- Witness for C3: the proc.exe attribute of a record whose executable field is foo
wrapped in one leading double quote and one trailing single quote coerces to foo (the
mismatched quotes are stripped independently). -/
theorem c3_witness : FieldMapper.MapStr Mapper SF_PROC_EXE quotedRecord = "foo" := by
  have h := ((c3_mapstr_total_coercion Mapper SF_PROC_EXE quotedRecord).1
    quotedFoo (by decide)).1
  exact h.trans (by decide)

/-- Claim C4 (refuted by the code): the extractor registered under the protocol-name
attribute is mapProto, whose body returns the raw integer transport-protocol field
value unchanged; it performs no integer-to-symbolic-name table lookup. On a record
whose protocol field is 6 it yields the integer 6, not a protocol name string. -/
theorem c4_protoname_yields_raw_integer :
    FieldMapper.Map Mapper SF_NET_PROTONAME protoRecord = Value.int 6
    ∧ ∀ (src : Source) (attr : Attribute) (r : Record),
        mapProto src attr r = Value.int (r.GetInt attr src) :=
  ⟨by decide, fun _ _ _ => rfl⟩

/-- Claim C5: getFields returns a permutation of the registered names (hence each exactly
once, the keys being unique) sorted by ascending dot-separated segment count with
ascending lexicographic tiebreak, and on the example name set it yields exactly the
order stated in the specification. -/
theorem c5_fields_sorted_enumeration :
    (∀ keys : List String, List.Perm (getFields keys) keys
      ∧ List.Sorted fieldLe (getFields keys))
    ∧ (∀ k, k ∈ registryKeys → List.count k Fields = 1)
    ∧ List.Sorted fieldLe Fields
    ∧ getFields ["ts", "proc.pid", "proc.name", "a"]
        = ["a", "ts", "proc.name", "proc.pid"] := by
  refine ⟨fun keys => ⟨List.perm_insertionSort fieldLe keys,
    List.sorted_insertionSort fieldLe keys⟩, ?_,
    List.sorted_insertionSort fieldLe registryKeys, by decide⟩
  intro k hk
  have hperm : List.Perm Fields registryKeys := List.perm_insertionSort fieldLe registryKeys
  have hnd : registryKeys.Nodup := by decide
  exact (hperm.count_eq k).trans (List.count_eq_one_of_mem hnd hk)

/-- Witness for C5: the registered name ts occurs exactly once in the derived
enumeration. -/
theorem c5_witness : List.count SF_TS Fields = 1 :=
  c5_fields_sorted_enumeration.2.1 SF_TS (by decide)

/-- Claim C6: the link-path extractor returns only the target path when the underlying
string parses as the hex arrow notation, and the original string unchanged otherwise;
the specification examples scan as stated; no input signals an error. -/
theorem c6_linkpath_target_or_identity (src : Source) (attr : Attribute) (r : Record) :
    (∀ t, scanLinkPath (r.GetStr attr src) = some t →
      mapLinkPath src attr r = Value.str t)
    ∧ (scanLinkPath (r.GetStr attr src) = none →
      mapLinkPath src attr r = Value.str (r.GetStr attr src))
    ∧ scanLinkPath "aabbccddeeff0011->aabbccddeeff0011 /path/to/target.file"
        = some "/path/to/target.file"
    ∧ scanLinkPath "/plain/path" = none := by
  refine ⟨?_, ?_, by decide, by decide⟩
  · intro t ht
    unfold mapLinkPath
    rw [ht]
  · intro h
    unfold mapLinkPath
    rw [h]

/-- Witness for C6: on a record carrying the arrow-notation example string, the extractor
yields only the target path. -/
theorem c6_witness :
    mapLinkPath Source.SYSFLOW_SRC Attribute.FILE_PATH_STR linkRecord
      = Value.str "/path/to/target.file" :=
  (c6_linkpath_target_or_identity Source.SYSFLOW_SRC Attribute.FILE_PATH_STR
    linkRecord).1 "/path/to/target.file" (by decide)

/-- Claim C7: the return-code extractor yields the raw return-code field exactly when the
record type field equals the process-event or file-event code, and the integer zero
value for every other record type. -/
theorem c7_mapret_gated_by_record_type (src : Source) (r : Record) :
    ((r.GetInt Attribute.SF_REC_TYPE src = PROC_EVT
        ∨ r.GetInt Attribute.SF_REC_TYPE src = FILE_EVT) →
      mapRet src r = Value.int (r.GetInt Attribute.RET_INT src))
    ∧ ((r.GetInt Attribute.SF_REC_TYPE src ≠ PROC_EVT
        ∧ r.GetInt Attribute.SF_REC_TYPE src ≠ FILE_EVT) →
      mapRet src r = Value.int 0) := by
  constructor
  · rintro (h | h)
    · unfold mapRet
      rw [if_pos h]
    · unfold mapRet
      by_cases h2 : r.GetInt Attribute.SF_REC_TYPE src = PROC_EVT
      · rw [if_pos h2]
      · rw [if_neg h2, if_pos h]
  · rintro ⟨h1, h2⟩
    unfold mapRet
    rw [if_neg h1, if_neg h2]
    rfl

/-- Witness for C7: a process-event record with return code 42 yields 42. -/
theorem c7_witness : mapRet Source.SYSFLOW_SRC retRecord = Value.int 42 := by
  have h := (c7_mapret_gated_by_record_type Source.SYSFLOW_SRC retRecord).1
    (Or.inl (by decide))
  exact h.trans (by decide)

/-- Claim C8: the sum extractor bound to two integer fields returns the wrapping 64-bit
sum of the record values of those fields, for arbitrary in-range int64 field values
including zero and negative inputs. -/
theorem c8_mapsum_wrapping_sum (src : Source) (a b : Attribute) (r : Record)
    (ha1 : -(2 ^ 63) ≤ r.GetInt a src) (ha2 : r.GetInt a src < 2 ^ 63)
    (hb1 : -(2 ^ 63) ≤ r.GetInt b src) (hb2 : r.GetInt b src < 2 ^ 63) :
    mapSum src [a, b] r = Value.int (wrap64 (r.GetInt a src + r.GetInt b src)) := by
  unfold mapSum
  simp only [List.foldl]
  rw [zero_add, wrap64_eq_self _ ha1 ha2]

/-- Witness for C8: the flow counters -5 and 3 sum to -2. -/
theorem c8_witness :
    mapSum Source.SYSFLOW_SRC
      [Attribute.FL_FILE_NUMRRECVBYTES_INT, Attribute.FL_NETW_NUMRRECVBYTES_INT]
      sumRecord = Value.int (-2) := by
  have h := c8_mapsum_wrapping_sum Source.SYSFLOW_SRC
    Attribute.FL_FILE_NUMRRECVBYTES_INT Attribute.FL_NETW_NUMRRECVBYTES_INT
    sumRecord (by decide) (by decide) (by decide) (by decide)
  exact h.trans (by decide)

/-- Claim C9: the join extractor factory reads the first bound field unguarded, so on an
empty bound list the produced extractor hits the out-of-bounds branch (none); on any
non-empty bound list it is total and returns the first field value followed by each
remaining field value prefixed with one space, in order; the registry entry for the
command-line attribute binds exactly the executable and arguments fields, satisfying
the non-emptiness precondition. -/
theorem c9_mapjoin_nonempty_precondition (src : Source) (a : Attribute)
    (rest : List Attribute) (r : Record) :
    mapJoin src [] r = none
    ∧ mapJoin src (a :: rest) r = some (Value.str (rest.foldl
        (fun join attr => join ++ SPACE ++ r.GetStr attr src) (r.GetStr a src)))
    ∧ FieldMapper.Map Mapper SF_PROC_CMDLINE r = Value.str
        (r.GetStr Attribute.PROC_EXE_STR Source.SYSFLOW_SRC ++ SPACE
          ++ r.GetStr Attribute.PROC_EXEARGS_STR Source.SYSFLOW_SRC) :=
  ⟨rfl, rfl, rfl⟩

/-- Claim C10: quote trimming never strips the same character twice and never underflows:
the result is the input with at most one character dropped at the front and at most one
dropped at the back, a one-character quote string trims to the empty string, and the
output length is at least the input length minus two. -/
theorem c10_trim_never_double_strips (m : FieldMapper) :
    (∀ s : String, s.length - 2 ≤ (m.trimBoundingQuotes s).length)
    ∧ m.trimBoundingQuotes (String.mk [Char.ofNat 34]) = ""
    ∧ m.trimBoundingQuotes (String.mk [Char.ofNat 39]) = ""
    ∧ (∀ s : String, ∃ a b : Nat, a ≤ 1 ∧ b ≤ 1 ∧
        (m.trimBoundingQuotes s).data
          = (s.data.drop a).take ((s.data.drop a).length - b)) := by
  refine ⟨trimBoundingQuotes_length m, rfl, rfl, ?_⟩
  intro s
  obtain ⟨a, b, h1, h2, h3, _, _⟩ := trimBoundingQuotes_spec m s
  exact ⟨a, b, h1, h2, h3⟩

end SfProcessor
